import Mathlib

/-!
Verification of the RE2 reference backtracker (re2/testing/backtrack.cc) and
of the DFA header data structures (re2/dfa.h), as a shallow embedding.

Conventions of the embedding:
* C pointers into the searched text are modelled as natural-number offsets
  into a byte list `mem`; `tb`/`te` are `text.begin()`/`text.end()` and
  `cb`/`ce` are `context_.begin()`/`context_.end()` as offsets.
* A NULL `const char*` (for capture registers and `StringPiece::data()`)
  is modelled as `none : Option Nat`.
* `LOG(FATAL)` / failed `RE2_CHECK` aborts the process; the model returns
  `none`.  The unbounded C++ recursion is modelled with a fuel parameter;
  running out of fuel also yields `none`, and the termination theorem shows
  the fuel chosen by `Search` is never exhausted.
* Machine `int` / `uint32_t` arithmetic never overflows in the ranges the
  claims quantify over, so numbers are `Nat` (capture indices, which the
  code compares with `0`, are `Int`).
-/

namespace RE2

/-- Modelled from the spec: the compiled NFA program is an external
collaborator (re2/prog.h is not part of this component).  Each instruction
has an opcode in {ByteRange, Capture, EmptyWidth, Nop, Match, AltMatch,
Fail} with opcode-specific payload, a successor `out`, and a `last` flag
marking the end of an alternation group.  A ByteRange matches the bytes in
`[lo, hi]`. -/
inductive InstOp where
  | ByteRange (lo hi : Nat)
  | Capture (cap : Int)
  | EmptyWidth (empty : Nat)
  | Nop
  | Match
  | AltMatch
  | Fail
deriving DecidableEq

/-- Modelled from the spec: an NFA instruction (opcode, successor, last). -/
structure Inst where
  op : InstOp
  out : Nat
  last : Bool
deriving DecidableEq

/-- Modelled from the spec: `Prog::Inst::Matches(c)` for a ByteRange
instruction: does byte `c` fall in `[lo, hi]`?  The byte is an `int` that
is `-1` at end of text, which no byte range contains. -/
def instByteMatches (lo hi : Nat) (c : Int) : Bool :=
  decide ((lo : Int) ≤ c) && decide (c ≤ (hi : Int))

/-- Modelled from the spec: the compiled NFA program: instruction array,
entry point `start`, anchoring bits, and the byte-class map
`bytemap[0..255] → [0, bytemap_range)`. -/
structure Prog where
  insts : List Inst
  start : Nat
  anchor_start : Bool
  anchor_end : Bool
  bytemap : List Nat
  bytemap_range : Nat

/-- Number of instructions, `Prog::size()`. -/
def Prog.size (prog : Prog) : Nat := prog.insts.length

/-- Instruction lookup, `Prog::inst(id)`.  Out-of-range ids (which the C++
never dereferences in a well-formed program) default to a Fail
instruction. -/
def Prog.inst (prog : Prog) (id : Nat) : Inst := prog.insts.getD id ⟨.Fail, 0, true⟩

/-- Well-formedness of a compiled program, as guaranteed by the (external)
compiler: every successor id is in range, and an instruction that is not
`last` in its alternation group is followed by another instruction. -/
def WfProg (prog : Prog) : Prop :=
  (∀ i, i < prog.size → (prog.inst i).out < prog.size) ∧
  (∀ i, i < prog.size → (prog.inst i).last = false → i + 1 < prog.size)

/-- A recorded submatch (`StringPiece`): data pointer and size.
`data = none` models a NULL StringPiece. -/
abbrev Sub := Option Nat × Nat

/-- End pointer `EndPtr(sp) = sp.data() + sp.size()` of a submatch whose
data pointer is expected to be non-null. -/
def subEnd (s : Sub) : Nat := s.1.getD 0 + s.2

namespace Backtracker

/-- Mutable search state of the backtracker: the 64 capture registers
`cap_`, the visited bitmap `visited_` (a vector of 32-bit words), and the
submatch array `submatch_` (of length `nsubmatch_`). -/
structure BtState where
  cap : List (Option Nat)
  visited : List Nat
  sub : List Sub
deriving DecidableEq

/-- Search parameters fixed for the duration of one `Search` call:
program, memory, text slice `[tb, te)`, context slice `[cb, ce)`, the
`longest_` / `endmatch_` flags, `nsubmatch_`, and the external
`Prog::EmptyFlags(context_, p)` function (out of scope for this component),
modelled as a function of `(cb, ce, p)`. -/
structure BtParams where
  prog : Prog
  mem : List Nat
  tb : Nat
  te : Nat
  cb : Nat
  ce : Nat
  longest : Bool
  endmatch : Bool
  nsub : Nat
  ef : Nat → Nat → Nat → Nat

/-- Bit index of the (instruction, position) pair, from Visit:
`n = id * (text_.size()+1) + (p - text_.data())`. -/
def bitIndex (P : BtParams) (id p : Nat) : Nat :=
  id * ((P.te - P.tb) + 1) + (p - P.tb)

/-- Bit test on the visited bitmap: `visited_[n/32] & (1 << (n&31))`. -/
def visitedGet (words : List Nat) (n : Nat) : Bool :=
  decide (words.getD (n / 32) 0 &&& (1 <<< (n &&& 31)) ≠ 0)

/-- Bit set on the visited bitmap: `visited_[n/32] |= 1 << (n&31)`. -/
def visitedSet (words : List Nat) (n : Nat) : List Nat :=
  words.set (n / 32) (words.getD (n / 32) 0 ||| (1 <<< (n &&& 31)))

/-- Size in 32-bit words of the visited bitmap allocated by `Search`:
`nvisited = prog_->size() * (text.size()+1); nvisited = (nvisited+31)/32`. -/
def nvisitedWords (prog : Prog) (textSize : Nat) : Nat :=
  (prog.size * (textSize + 1) + 31) / 32

/-- The capture register file after `memset(cap_, 0, sizeof cap_)`:
64 NULL registers (`const char* cap_[64]`). -/
def initialCap : List (Option Nat) := List.replicate 64 none

/-- Records `submatch_[i] = StringPiece(cap_[2*i], cap_[2*i+1] - cap_[2*i])`
for `i = 0 .. nsub-1` (the loop in the kInstMatch case of `Try`).  The
pointer subtraction is on two registers that are both set on a real match;
it is modelled as truncated subtraction of the offsets. -/
def writeSubs (sub : List Sub) (cap : List (Option Nat)) (nsub : Nat) : List Sub :=
  (List.range nsub).foldl
    (fun s i => s.set i (cap.getD (2 * i) none,
                         (cap.getD (2 * i + 1) none).getD 0 - (cap.getD (2 * i) none).getD 0))
    sub

/-- Byte at the current position, from `Try`:
`int c = -1; if (p < text_.data() + text_.size()) c = *p & 0xFF;`.
At end of text the impossible byte `-1` is used. -/
def byteAt (P : BtParams) (p : Nat) : Int :=
  if p < P.te then ((P.mem.getD p 0 &&& 255 : Nat) : Int) else -1

/-- Selector for the two mutually recursive procedures `Visit` and `Try`. -/
inductive BtCall where
  | visit (id p : Nat)
  | tryInst (id p : Nat)

/-- The mutually recursive pair `Backtracker::Visit` / `Backtracker::Try`,
fuelled.  `none` means a failed `RE2_CHECK` (fatal in C++) or exhausted
fuel; `some (b, st)` is the boolean result together with the state after
the call.

`.visit id p`: checks `p <= text_.end()` and the bitmap bounds, prunes if
the (id, p) bit is set, otherwise sets the bit and runs `Try`; on success
under `longest_` it additionally explores `id+1` when the instruction is
not last in its alternation group, discarding that result's boolean; on
failure it falls through to `id+1` when not last.

`.tryInst id p`: dispatches on the opcode of instruction `id`, as in the
switch of `Backtracker::Try`. -/
def runF (P : BtParams) : Nat → BtCall → BtState → Option (Bool × BtState)
  | 0, _, _ => none
  | fuel + 1, .visit id p, st =>
    -- RE2_CHECK(p <= text_.data() + text_.size());
    if ¬ (p ≤ P.te) then none
    else
      let n := bitIndex P id p
      -- RE2_CHECK_LT(n / 32, visited_.size());
      if ¬ (n / 32 < st.visited.length) then none
      else if visitedGet st.visited n then some (false, st)
      else
        let st1 := { st with visited := visitedSet st.visited n }
        match runF P fuel (.tryInst id p) st1 with
        | none => none
        | some (true, st2) =>
          if P.longest && !(P.prog.inst id).last then
            match runF P fuel (.visit (id + 1) p) st2 with
            | none => none
            | some (_, st3) => some (true, st3)
          else some (true, st2)
        | some (false, st2) =>
          if !(P.prog.inst id).last then runF P fuel (.visit (id + 1) p) st2
          else some (false, st2)
  | fuel + 1, .tryInst id p, st =>
    -- int c = -1; if (p < text_.data() + text_.size()) c = *p & 0xFF;
    let c : Int := byteAt P p
    let ip := P.prog.inst id
    match ip.op with
    | .AltMatch => some (false, st)
    | .ByteRange lo hi =>
      if instByteMatches lo hi c then runF P fuel (.visit ip.out (p + 1)) st
      else some (false, st)
    | .Capture cp =>
      if 0 ≤ cp ∧ cp < 64 then
        -- save old value, set register, explore, restore on backtrack
        let q := st.cap.getD cp.toNat none
        let st1 := { st with cap := st.cap.set cp.toNat (some p) }
        match runF P fuel (.visit ip.out p) st1 with
        | none => none
        | some (ret, st2) => some (ret, { st2 with cap := st2.cap.set cp.toNat q })
      else runF P fuel (.visit ip.out p) st
    | .EmptyWidth empty =>
      -- if (ip->empty() & ~Prog::EmptyFlags(context_, p)) return false;
      -- (~ is 32-bit integer complement, modelled as xor with 0xFFFFFFFF)
      if empty &&& (4294967295 ^^^ P.ef P.cb P.ce p) ≠ 0 then some (false, st)
      else runF P fuel (.visit ip.out p) st
    | .Nop => runF P fuel (.visit ip.out p) st
    | .Match =>
      -- if (endmatch_ && p != context_.data() + context_.size()) return false;
      if P.endmatch && decide (p ≠ P.ce) then some (false, st)
      else
        let st1 := { st with cap := st.cap.set 1 (some p) }
        let sub0 := st1.sub.getD 0 (none, 0)
        -- first match so far, or better (longer) match: record it
        if sub0.1.isNone || (P.longest && decide (sub0.1.getD 0 + sub0.2 < p)) then
          some (true, { st1 with sub := writeSubs st1.sub st1.cap P.nsub })
        else some (true, st1)
    | .Fail => some (false, st)

/-- `Backtracker::Visit(id, p)` with explicit fuel. -/
def Visit (P : BtParams) (fuel id p : Nat) (st : BtState) : Option (Bool × BtState) :=
  runF P fuel (.visit id p) st

/-- `Backtracker::Try(id, p)` with explicit fuel. -/
def Try (P : BtParams) (fuel id p : Nat) (st : BtState) : Option (Bool × BtState) :=
  runF P fuel (.tryInst id p) st

/-- The unanchored loop at the end of `Backtracker::Search`: try an
anchored search from every position of `text`, leftmost first.  (The C++
`if (p == NULL) break` guard is unreachable in this model because offsets
are never NULL pointers.) -/
def searchLoop (P : BtParams) (fuel : Nat) : List Nat → BtState → Option (Bool × BtState)
  | [], st => some (false, st)
  | p :: ps, st =>
    let st1 := { st with cap := st.cap.set 0 (some p) }
    match runF P fuel (.visit P.prog.start p) st1 with
    | none => none
    | some (true, st2) => some (true, st2)
    | some (false, st2) => searchLoop P fuel ps st2

/-- `Backtracker::Search(text, context, anchored, longest, submatch,
nsubmatch)`.  `ctx = none` models a context whose `data()` is NULL;
`submatch` is the caller's array contents.  Returns the boolean result
together with the final contents of `submatch_` (`none` models a fatal
`RE2_CHECK` failure). -/
def Search (prog : Prog) (mem : List Nat) (tb te : Nat)
    (ctx : Option (Nat × Nat)) (anchored longest : Bool)
    (submatch : List Sub) (nsubmatch : Int) (ef : Nat → Nat → Nat → Nat) :
    Option (Bool × List Sub) :=
  -- if (context_.data() == NULL) context_ = text;
  let cv := ctx.getD (tb, te)
  if prog.anchor_start && decide (tb > cv.1) then some (false, submatch)
  else if prog.anchor_end && decide (te < cv.2) then some (false, submatch)
  else
    let anchored1 := anchored || prog.anchor_start
    let longest1 := longest || prog.anchor_end
    let endmatch1 := prog.anchor_end
    -- RE2_CHECK_LT(2 * nsubmatch_, static_cast<int>(arraysize(cap_)));
    if ¬ (2 * nsubmatch < 64) then none
    else
      -- we use submatch_[0] for our own bookkeeping, so it had better exist
      let sub0 := if nsubmatch < 1 then [((none : Option Nat), 0)] else submatch
      let nsub1 : Nat := if nsubmatch < 1 then 1 else nsubmatch.toNat
      -- submatch_[0] = StringPiece();
      let sub1 := sub0.set 0 (none, 0)
      let words0 := List.replicate (nvisitedWords prog (te - tb)) 0
      let P : BtParams := ⟨prog, mem, tb, te, cv.1, cv.2, longest1, endmatch1, nsub1, ef⟩
      -- fuel large enough that it is never exhausted (termination theorem)
      let fuel := 2 * (prog.size * ((te - tb) + 1)) + 1
      if anchored1 then
        let st0 : BtState := ⟨initialCap.set 0 (some tb), words0, sub1⟩
        match runF P fuel (.visit prog.start tb) st0 with
        | none => none
        | some (r, st) => some (r, st.sub)
      else
        match searchLoop P fuel (List.range' tb ((te - tb) + 1)) ⟨initialCap, words0, sub1⟩ with
        | none => none
        | some (r, st) => some (r, st.sub)

/-- Relation between the search state at entry and at exit of a
`Visit`/`Try` call: the register file keeps its 64 slots, the visited
bitmap keeps its size, and visited bits are never cleared. -/
def StPres (st st' : BtState) : Prop :=
  st'.cap.length = st.cap.length ∧
  st'.visited.length = st.visited.length ∧
  ∀ n, visitedGet st.visited n = true → visitedGet st'.visited n = true

/-- Number of (instruction, position) pairs whose bit in the visited
bitmap is still clear.  This is the variant of the termination argument:
every `Visit` that is not pruned clears one pair before exploring. -/
def unvisitedCount (P : BtParams) (st : BtState) : Nat :=
  ((Finset.range P.prog.size ×ˢ Finset.range ((P.te - P.tb) + 1)).filter
    (fun q => visitedGet st.visited (q.1 * ((P.te - P.tb) + 1) + q.2) = false)).card

end Backtracker

/-- Modelled from the spec: `Prog::Anchor` of the search interface. -/
inductive Anchor where
  | kUnanchored
  | kAnchored
deriving DecidableEq

/-- Modelled from the spec: `Prog::MatchKind`
(FirstMatch / LongestMatch / FullMatch / ManyMatch). -/
inductive MatchKind where
  | kFirstMatch
  | kLongestMatch
  | kFullMatch
  | kManyMatch
deriving DecidableEq

/-- `Prog::UnsafeSearchBacktrack`: under kFullMatch, forces an anchored
longest search and then checks `EndPtr(match[0]) == EndPtr(text)`. -/
def Prog.UnsafeSearchBacktrack (prog : Prog) (mem : List Nat) (tb te : Nat)
    (ctx : Option (Nat × Nat)) (anchor : Anchor) (kind : MatchKind)
    (mtch : List Sub) (nmatch : Int) (ef : Nat → Nat → Nat → Nat) :
    Option Bool :=
  let anchor1 := if kind = .kFullMatch then .kAnchored else anchor
  let m := if kind = .kFullMatch ∧ nmatch < 1 then [((none : Option Nat), 0)] else mtch
  let n := if kind = .kFullMatch ∧ nmatch < 1 then 1 else nmatch
  let anchored := decide (anchor1 = .kAnchored)
  let longest := decide (kind ≠ .kFirstMatch)
  match Backtracker.Search prog mem tb te ctx anchored longest m n ef with
  | none => none
  | some (false, _) => some false
  | some (true, sub) =>
    if kind = .kFullMatch ∧ subEnd (sub.getD 0 (none, 0)) ≠ te then some false
    else some true

namespace DFA

/-- A single DFA state: the instruction list `inst_` (with `ninst_` its
length), the flag word `flag_`, and the outgoing transition slots `next_`
(modelled abstractly; they take no part in equality or hashing). -/
structure State where
  inst : List Int
  flag : Nat
  next : List Nat
deriving DecidableEq

/-- Elementwise comparison loop of `StateEqual`:
`for (int i = 0; i < a->ninst_; i++) if (a->inst_[i] != b->inst_[i]) return false;`. -/
def instListEqual : List Int → List Int → Bool
  | [], [] => true
  | a :: as, b :: bs => a == b && instListEqual as bs
  | _, _ => false

/-- `DFA::StateEqual::operator()`: pointer shortcut, then `flag_`,
`ninst_`, and the `inst_` entries. -/
def StateEqual (a b : State) : Bool :=
  if a = b then true
  else if a.flag ≠ b.flag then false
  else if a.inst.length ≠ b.inst.length then false
  else instListEqual a.inst b.inst

/-- `DFA::StateHash::operator()`: seeds a HashMix with `flag_`, mixes in
the `ninst_` entries of `inst_` and a final `0`, then extracts the hash.
HashMix (util/mix.h) is external; the definition is parametric in its
implementation `(init, mix, get)`. -/
def StateHash {M : Type} (init : Nat → M) (mix : M → Int → M) (get : M → Nat)
    (a : State) : Nat :=
  get (mix (a.inst.foldl mix (init a.flag)) 0)

/-- The imaginary byte at end of text. -/
def kByteEndText : Nat := 256

/-- `DFA::ByteMap`: looks up bytes in `prog_->bytemap()` but maps the
imaginary end-of-text byte to the extra slot `prog_->bytemap_range()`. -/
def ByteMap (prog : Prog) (c : Nat) : Nat :=
  if c = kByteEndText then prog.bytemap_range
  else prog.bytemap.getD c 0

/-- Lock-related events emitted by an RWLocker, from the perspective of
the one cache mutex it wraps. -/
inductive LockEvent where
  | readerLock
  | readerUnlock
  | writerLock
  | writerUnlock
deriving DecidableEq

/-- The mode in which this locker currently holds the mutex. -/
inductive LockMode where
  | reader
  | writer
deriving DecidableEq

/-- `DFA::RWLocker`: the only mutable member is `writing_`. -/
structure RWLocker where
  writing : Bool
deriving DecidableEq

/-- The constructor `RWLocker(CacheMutex* mu)`: starts in reading mode
after acquiring the reader lock. -/
def RWLocker.new : RWLocker × List LockEvent := (⟨false⟩, [.readerLock])

/-- `RWLocker::LockForWriting`: if not yet writing, release the reader
lock, then acquire the writer lock; otherwise do nothing. -/
def RWLocker.lockForWriting (l : RWLocker) : RWLocker × List LockEvent :=
  if l.writing then (l, [])
  else (⟨true⟩, [.readerUnlock, .writerLock])

/-- The destructor `~RWLocker`: releases the lock in whichever mode is
currently held. -/
def RWLocker.destroy (l : RWLocker) : List LockEvent :=
  if l.writing then [.writerUnlock] else [.readerUnlock]

/-- Effect of one lock event on the mode this locker holds. -/
def heldAfter : Option LockMode → LockEvent → Option LockMode
  | _, .readerLock => some .reader
  | _, .writerLock => some .writer
  | _, .readerUnlock => none
  | _, .writerUnlock => none

/-- Mode held after a sequence of lock events. -/
def heldTrace (h : Option LockMode) (es : List LockEvent) : Option LockMode :=
  es.foldl heldAfter h

end DFA

/-! Concrete example programs and inputs used to instantiate theorems with
hypotheses. -/

/-- A two-instruction program for the regex `a`: a byte range for `0x61`
followed by a match. -/
def exProgA : Prog :=
  ⟨[⟨.ByteRange 97 97, 1, true⟩, ⟨.Match, 0, true⟩], 0, false, false, [], 0⟩

/-- The same program with `anchor_start` set. -/
def exProgAnchorStart : Prog :=
  ⟨[⟨.ByteRange 97 97, 1, true⟩, ⟨.Match, 0, true⟩], 0, true, false, [], 0⟩

/-- A one-instruction program that matches the empty string. -/
def exProgM : Prog := ⟨[⟨.Match, 0, true⟩], 0, false, false, [], 0⟩

/-- A trivial empty-flags function for examples. -/
def exEf : Nat → Nat → Nat → Nat := fun _ _ _ => 0

/-- A program with a 256-entry bytemap of a single byte class. -/
def exProgBytemap : Prog := ⟨[], 0, false, false, List.replicate 256 0, 1⟩

/-- A program whose first instruction is a capture with an out-of-range
register index. -/
def exProgCap : Prog :=
  ⟨[⟨.Capture 99, 1, true⟩, ⟨.Match, 0, true⟩], 0, false, false, [], 0⟩

/-- Backtracker parameters for `exProgM` on the empty text. -/
def exP : Backtracker.BtParams := ⟨exProgM, [], 0, 0, 0, 0, false, false, 1, exEf⟩

/-- Backtracker parameters for `exProgCap` on the empty text. -/
def exPCap : Backtracker.BtParams := ⟨exProgCap, [], 0, 0, 0, 0, false, false, 1, exEf⟩

/-- A one-word state whose single pair bit is already set. -/
def exStM : Backtracker.BtState := ⟨Backtracker.initialCap, [1], [(none, 0)]⟩

/-- A one-word state with no bit set. -/
def exStM0 : Backtracker.BtState := ⟨Backtracker.initialCap, [0], [(none, 0)]⟩

/-- The state after `Try` reports the empty match of `exProgM` at
position 0 in `exStM0` (after its pair bit was set). -/
def exStM2 : Backtracker.BtState :=
  ⟨Backtracker.initialCap.set 1 (some 0), [1], [(none, 0)]⟩

/-- Two DFA states equal in flag and instruction list but with different
transition slots. -/
def exStateA : DFA.State := ⟨[1, 2], 3, [4]⟩

/-- The counterpart of `exStateA` with different `next` contents. -/
def exStateB : DFA.State := ⟨[1, 2], 3, [7]⟩

/-! Helper lemmas about the visited bitmap. -/

namespace Backtracker

/-- Testing a single-bit mask is testing that bit. -/
lemma and_one_shift_ne_iff (x b : Nat) : (x &&& (1 <<< b) ≠ 0) ↔ x.testBit b := by
  rw [Nat.shiftLeft_eq, one_mul, Nat.and_two_pow]
  rcases h : x.testBit b with _ | _ <;> simp [h]

/-- The low five bits of `n` are `n` modulo 32. -/
lemma and31_eq_mod (n : Nat) : n &&& 31 = n % 32 := by
  apply Nat.eq_of_testBit_eq
  intro i
  have h31 : (31 : Nat) = 2 ^ 5 - 1 := by norm_num
  have h32 : (32 : Nat) = 2 ^ 5 := by norm_num
  rw [Nat.testBit_and, h31, h32, Nat.testBit_two_pow_sub_one, Nat.testBit_mod_two_pow,
    Bool.and_comm]

/-- The bitmap probe is a `testBit` of the selected word. -/
lemma visitedGet_eq_testBit (w : List Nat) (n : Nat) :
    visitedGet w n = (w.getD (n / 32) 0).testBit (n % 32) := by
  have h := and_one_shift_ne_iff (w.getD (n / 32) 0) (n &&& 31)
  rw [and31_eq_mod] at h
  rw [visitedGet, and31_eq_mod]
  by_cases hc : w.getD (n / 32) 0 &&& 1 <<< (n % 32) ≠ 0
  · rw [decide_eq_true hc, h.1 hc]
  · exact (decide_eq_false hc).trans (Bool.eq_false_iff.2 fun hb => hc (h.2 hb)).symm

/-- Reading back the word just written. -/
lemma getD_set_self (l : List Nat) (k v : Nat) (h : k < l.length) :
    (l.set k v).getD k 0 = v := by
  rw [List.getD_eq_getElem?_getD, List.getElem?_set_self (by omega), Option.getD_some]

/-- Reading a word other than the one written. -/
lemma getD_set_ne (l : List Nat) (k j v : Nat) (h : j ≠ k) :
    (l.set k v).getD j 0 = l.getD j 0 := by
  rw [List.getD_eq_getElem?_getD, List.getElem?_set_ne (by omega),
    ← List.getD_eq_getElem?_getD]

/-- Setting a bit leaves the bitmap length unchanged. -/
lemma visitedSet_length (w : List Nat) (n : Nat) :
    (visitedSet w n).length = w.length := List.length_set w _ _

/-- A bit just set reads back as set (the word index must be in range,
which the `RE2_CHECK` in `Visit` has established). -/
lemma visitedGet_visitedSet_self (w : List Nat) (n : Nat) (h : n / 32 < w.length) :
    visitedGet (visitedSet w n) n = true := by
  rw [visitedGet_eq_testBit, visitedSet, getD_set_self _ _ _ h, Nat.testBit_or,
    Nat.shiftLeft_eq, one_mul, and31_eq_mod, Nat.testBit_two_pow_self, Bool.or_true]

/-- Setting one bit does not change any other bit. -/
lemma visitedGet_visitedSet_ne (w : List Nat) (n m : Nat) (h : m ≠ n) :
    visitedGet (visitedSet w n) m = visitedGet w m := by
  rw [visitedGet_eq_testBit, visitedGet_eq_testBit, visitedSet]
  by_cases hw : m / 32 = n / 32
  · by_cases hl : n / 32 < w.length
    · rw [hw, getD_set_self _ _ _ hl, Nat.testBit_or, Nat.shiftLeft_eq, one_mul,
        and31_eq_mod, Nat.testBit_two_pow_of_ne (by omega), Bool.or_false]
    · rw [List.set_eq_of_length_le (by omega)]
  · rw [getD_set_ne _ _ _ _ hw]

/-- Bits only accumulate under `visitedSet`. -/
lemma visitedGet_visitedSet_mono (w : List Nat) (n m : Nat)
    (h : visitedGet w m = true) : visitedGet (visitedSet w n) m = true := by
  by_cases hmn : m = n
  · subst hmn
    by_cases hl : m / 32 < w.length
    · exact visitedGet_visitedSet_self w m hl
    · rw [visitedSet, List.set_eq_of_length_le (by omega)]
      exact h
  · rw [visitedGet_visitedSet_ne w n m hmn]
    exact h

/-! Preservation of the state invariants across `Visit`/`Try`. -/

lemma StPres.refl (st : BtState) : StPres st st := ⟨Eq.refl _, Eq.refl _, fun _ h => h⟩

lemma StPres.trans {s1 s2 s3 : BtState} (h1 : StPres s1 s2) (h2 : StPres s2 s3) :
    StPres s1 s3 :=
  ⟨h2.1.trans h1.1, h2.2.1.trans h1.2.1, fun n h => h2.2.2 n (h1.2.2 n h)⟩

lemma StPres.mark (st : BtState) (n : Nat) :
    StPres st { st with visited := visitedSet st.visited n } :=
  ⟨rfl, visitedSet_length _ _, fun _ h => visitedGet_visitedSet_mono _ _ _ h⟩

lemma StPres.setCap (st : BtState) (i : Nat) (v : Option Nat) :
    StPres st { st with cap := st.cap.set i v } :=
  ⟨List.length_set _ _ _, rfl, fun _ h => h⟩

lemma StPres.setSub (st : BtState) (s : List Sub) :
    StPres st { st with sub := s } := ⟨rfl, rfl, fun _ h => h⟩

/-- Every completed `Visit`/`Try` call preserves the state invariants:
the register file size, the bitmap size, and all previously set bits. -/
lemma runF_preserve (P : BtParams) :
    ∀ fuel c st b st', runF P fuel c st = some (b, st') → StPres st st' := by
  intro fuel
  induction fuel with
  | zero => intro c st b st' h; simp [runF] at h
  | succ f ih =>
    intro c st b st' h
    cases c with
    | visit id p =>
      simp only [runF] at h
      split at h
      · exact absurd h (by simp)
      · split at h
        · exact absurd h (by simp)
        · split at h
          · simp only [Option.some.injEq, Prod.mk.injEq] at h
            rw [← h.2]
            exact StPres.refl st
          · split at h
            · exact absurd h (by simp)
            · -- Try succeeded
              rename_i st2 heq
              split at h
              · -- longest and not last: also explore id+1
                split at h
                · exact absurd h (by simp)
                · rename_i st3 heq2
                  simp only [Option.some.injEq, Prod.mk.injEq] at h
                  rw [← h.2]
                  exact ((StPres.mark st _).trans (ih _ _ _ _ heq)).trans (ih _ _ _ _ heq2)
              · simp only [Option.some.injEq, Prod.mk.injEq] at h
                rw [← h.2]
                exact (StPres.mark st _).trans (ih _ _ _ _ heq)
            · -- Try failed
              rename_i st2 heq
              split at h
              · exact ((StPres.mark st _).trans (ih _ _ _ _ heq)).trans (ih _ _ _ _ h)
              · simp only [Option.some.injEq, Prod.mk.injEq] at h
                rw [← h.2]
                exact (StPres.mark st _).trans (ih _ _ _ _ heq)
    | tryInst id p =>
      cases hop : (P.prog.inst id).op with
      | AltMatch =>
        simp only [runF, hop] at h
        simp only [Option.some.injEq, Prod.mk.injEq] at h
        rw [← h.2]
        exact StPres.refl st
      | ByteRange lo hi =>
        simp only [runF, hop] at h
        split at h
        · exact ih _ _ _ _ h
        · simp only [Option.some.injEq, Prod.mk.injEq] at h
          rw [← h.2]
          exact StPres.refl st
      | Capture cp =>
        simp only [runF, hop] at h
        split at h
        · split at h
          · exact absurd h (by simp)
          · rename_i st2 heq
            simp only [Option.some.injEq, Prod.mk.injEq] at h
            rw [← h.2]
            exact ((StPres.setCap st _ _).trans (ih _ _ _ _ heq)).trans (StPres.setCap st2 _ _)
        · exact ih _ _ _ _ h
      | EmptyWidth em =>
        simp only [runF, hop] at h
        split at h
        · simp only [Option.some.injEq, Prod.mk.injEq] at h
          rw [← h.2]
          exact StPres.refl st
        · exact ih _ _ _ _ h
      | Nop =>
        simp only [runF, hop] at h
        exact ih _ _ _ _ h
      | Match =>
        simp only [runF, hop] at h
        split at h
        · simp only [Option.some.injEq, Prod.mk.injEq] at h
          rw [← h.2]
          exact StPres.refl st
        · split at h
          · simp only [Option.some.injEq, Prod.mk.injEq] at h
            rw [← h.2]
            exact (StPres.setCap st 1 (some p)).trans (StPres.setSub _ _)
          · simp only [Option.some.injEq, Prod.mk.injEq] at h
            rw [← h.2]
            exact StPres.setCap st 1 (some p)
      | Fail =>
        simp only [runF, hop] at h
        simp only [Option.some.injEq, Prod.mk.injEq] at h
        rw [← h.2]
        exact StPres.refl st

/-! Counting unvisited pairs: the termination variant. -/

/-- No byte range contains the impossible end-of-text byte `-1`. -/
lemma byteMatches_end (lo hi : Nat) : instByteMatches lo hi (-1) = false := by
  simp only [instByteMatches, Bool.and_eq_false_iff, decide_eq_false_iff_not]
  left
  omega

/-- There are at most `prog.size * (text.size()+1)` unvisited pairs. -/
lemma unvisitedCount_le (P : BtParams) (st : BtState) :
    unvisitedCount P st ≤ P.prog.size * ((P.te - P.tb) + 1) := by
  calc unvisitedCount P st
      ≤ (Finset.range P.prog.size ×ˢ Finset.range ((P.te - P.tb) + 1)).card :=
        Finset.card_filter_le _ _
    _ = P.prog.size * ((P.te - P.tb) + 1) := by
        rw [Finset.card_product, Finset.card_range, Finset.card_range]

/-- If bits only accumulate, the unvisited count does not increase. -/
lemma unvisitedCount_mono (P : BtParams) {st st' : BtState}
    (h : ∀ n, visitedGet st.visited n = true → visitedGet st'.visited n = true) :
    unvisitedCount P st' ≤ unvisitedCount P st := by
  apply Finset.card_le_card
  intro q hq
  simp only [Finset.mem_filter] at hq ⊢
  refine ⟨hq.1, ?_⟩
  cases hb : visitedGet st.visited (q.1 * ((P.te - P.tb) + 1) + q.2) with
  | false => rfl
  | true => rw [h _ hb] at hq; exact absurd hq.2 (by simp)

/-- Decomposition of a pair index `a * (L+1) + r` with `r ≤ L`. -/
lemma pairIndex_div_mod (L a r : Nat) (hr : r < L + 1) :
    (a * (L + 1) + r) / (L + 1) = a ∧ (a * (L + 1) + r) % (L + 1) = r := by
  constructor
  · rw [mul_comm, Nat.mul_add_div (Nat.succ_pos L), Nat.div_eq_of_lt hr, add_zero]
  · rw [mul_comm, Nat.mul_add_mod, Nat.mod_eq_of_lt hr]

/-- The pair index is injective on in-range pairs. -/
lemma pairIndex_inj (L a1 r1 a2 r2 : Nat) (h1 : r1 < L + 1) (h2 : r2 < L + 1)
    (h : a1 * (L + 1) + r1 = a2 * (L + 1) + r2) : a1 = a2 ∧ r1 = r2 := by
  have d1 := pairIndex_div_mod L a1 r1 h1
  have d2 := pairIndex_div_mod L a2 r2 h2
  rw [h] at d1
  exact ⟨d1.1.symm.trans d2.1, d1.2.symm.trans d2.2⟩

/-- The bit index of an in-range pair is below the total bit count. -/
lemma bitIndex_lt (P : BtParams) (id p : Nat) (hid : id < P.prog.size)
    (hp2 : p ≤ P.te) :
    bitIndex P id p < P.prog.size * ((P.te - P.tb) + 1) := by
  have h1 : p - P.tb < (P.te - P.tb) + 1 := by omega
  calc bitIndex P id p < id * ((P.te - P.tb) + 1) + ((P.te - P.tb) + 1) := by
        unfold bitIndex; omega
    _ = (id + 1) * ((P.te - P.tb) + 1) := by ring
    _ ≤ P.prog.size * ((P.te - P.tb) + 1) := Nat.mul_le_mul_right _ hid

/-- Marking an unvisited in-range pair strictly decreases the count. -/
lemma unvisitedCount_mark_lt (P : BtParams) (st : BtState) (id p : Nat)
    (hid : id < P.prog.size) (hp1 : P.tb ≤ p) (hp2 : p ≤ P.te)
    (hnew : visitedGet st.visited (bitIndex P id p) = false)
    (hlen : bitIndex P id p / 32 < st.visited.length) :
    unvisitedCount P { st with visited := visitedSet st.visited (bitIndex P id p) }
      < unvisitedCount P st := by
  have hoff : p - P.tb < (P.te - P.tb) + 1 := by omega
  have hbit : bitIndex P id p = id * ((P.te - P.tb) + 1) + (p - P.tb) := rfl
  have hqmem : (id, p - P.tb) ∈
      (Finset.range P.prog.size ×ˢ Finset.range ((P.te - P.tb) + 1)).filter
        (fun q => visitedGet st.visited (q.1 * ((P.te - P.tb) + 1) + q.2) = false) := by
    simp only [Finset.mem_filter, Finset.mem_product, Finset.mem_range]
    exact ⟨⟨hid, hoff⟩, hbit ▸ hnew⟩
  have hsub : (Finset.range P.prog.size ×ˢ Finset.range ((P.te - P.tb) + 1)).filter
        (fun q => visitedGet (visitedSet st.visited (bitIndex P id p))
          (q.1 * ((P.te - P.tb) + 1) + q.2) = false) ⊆
      ((Finset.range P.prog.size ×ˢ Finset.range ((P.te - P.tb) + 1)).filter
        (fun q => visitedGet st.visited (q.1 * ((P.te - P.tb) + 1) + q.2) = false)) := by
    intro q hq
    simp only [Finset.mem_filter, Finset.mem_product, Finset.mem_range] at hq ⊢
    refine ⟨hq.1, ?_⟩
    rcases hq with ⟨⟨hq1, hq2⟩, hqbit⟩
    by_cases hqp : q.1 * ((P.te - P.tb) + 1) + q.2 = bitIndex P id p
    · rw [hqp, visitedGet_visitedSet_self _ _ hlen] at hqbit
      exact absurd hqbit (by simp)
    · rw [visitedGet_visitedSet_ne _ _ _ hqp] at hqbit
      exact hqbit
  have hqnot : (id, p - P.tb) ∉
      (Finset.range P.prog.size ×ˢ Finset.range ((P.te - P.tb) + 1)).filter
        (fun q => visitedGet (visitedSet st.visited (bitIndex P id p))
          (q.1 * ((P.te - P.tb) + 1) + q.2) = false) := by
    simp only [Finset.mem_filter, Finset.mem_product, Finset.mem_range, not_and]
    intro _
    rw [← hbit, visitedGet_visitedSet_self _ _ hlen]
    simp
  exact Finset.card_lt_card
    ((Finset.ssubset_iff_of_subset hsub).2 ⟨(id, p - P.tb), hqmem, hqnot⟩)

/-- The word-index check in `Visit` always passes for in-range pairs. -/
lemma bitIndex_div32_lt (P : BtParams) (id p : Nat) (hid : id < P.prog.size)
    (hp2 : p ≤ P.te) :
    bitIndex P id p / 32 < nvisitedWords P.prog (P.te - P.tb) := by
  have h := bitIndex_lt P id p hid hp2
  unfold nvisitedWords
  omega

/-- Fuel adequacy: on a well-formed program, `Visit` needs at most
`2 * unvisited + 1` fuel and `Try` at most `2 * unvisited + 2`, so neither
a `RE2_CHECK` fires nor is the fuel ever exhausted.  This is the
termination argument for the unbounded C++ recursion: every non-pruned
`Visit` marks one more pair. -/
lemma runF_adequate (P : BtParams) (hwf : WfProg P.prog) : ∀ fuel : Nat,
    (∀ id p st, id < P.prog.size → P.tb ≤ p → p ≤ P.te →
      st.visited.length = nvisitedWords P.prog (P.te - P.tb) →
      2 * unvisitedCount P st + 1 ≤ fuel →
      runF P fuel (.visit id p) st ≠ none) ∧
    (∀ id p st, id < P.prog.size → P.tb ≤ p → p ≤ P.te →
      st.visited.length = nvisitedWords P.prog (P.te - P.tb) →
      2 * unvisitedCount P st + 2 ≤ fuel →
      runF P fuel (.tryInst id p) st ≠ none) := by
  intro fuel
  induction fuel with
  | zero =>
    exact ⟨fun id p st _ _ _ _ hf => by omega, fun id p st _ _ _ _ hf => by omega⟩
  | succ f ih =>
    constructor
    · -- Visit
      intro id p st hid hp1 hp2 hlen hf
      have hdiv : bitIndex P id p / 32 < st.visited.length := by
        rw [hlen]; exact bitIndex_div32_lt P id p hid hp2
      simp only [runF]
      rw [if_neg (not_not_intro hp2), if_neg (not_not_intro hdiv)]
      by_cases hv : visitedGet st.visited (bitIndex P id p) = true
      · rw [if_pos hv]; simp
      · rw [if_neg hv]
        rw [Bool.not_eq_true] at hv
        have hdec := unvisitedCount_mark_lt P st id p hid hp1 hp2 hv hdiv
        have hlen1 : (visitedSet st.visited (bitIndex P id p)).length =
            nvisitedWords P.prog (P.te - P.tb) := by
          rw [visitedSet_length]; exact hlen
        have htry := ih.2 id p { st with visited := visitedSet st.visited (bitIndex P id p) }
          hid hp1 hp2 hlen1 (by omega)
        obtain ⟨⟨b2, st2⟩, heq⟩ := Option.ne_none_iff_exists'.1 htry
        rw [heq]
        have hpres := runF_preserve P f _ _ _ _ heq
        have hlen2 : st2.visited.length = nvisitedWords P.prog (P.te - P.tb) := by
          rw [hpres.2.1]; exact hlen1
        have hu2 := unvisitedCount_mono P hpres.2.2
        cases b2 with
        | true =>
          show (if P.longest && !(P.prog.inst id).last then
              match runF P f (.visit (id + 1) p) st2 with
              | none => none
              | some (_, st3) => some (true, st3)
            else some (true, st2)) ≠ none
          by_cases hlast : (P.longest && !(P.prog.inst id).last) = true
          · rw [if_pos hlast]
            have hl : (P.prog.inst id).last = false := by
              rcases Bool.and_eq_true_iff.1 hlast with ⟨_, h2⟩
              rwa [Bool.not_eq_true'] at h2
            have hid1 : id + 1 < P.prog.size := hwf.2 id hid hl
            have hnext := ih.1 (id + 1) p st2 hid1 hp1 hp2 hlen2 (by omega)
            obtain ⟨⟨b3, st3⟩, heq3⟩ := Option.ne_none_iff_exists'.1 hnext
            rw [heq3]
            simp
          · rw [if_neg hlast]; simp
        | false =>
          show (if !(P.prog.inst id).last then runF P f (.visit (id + 1) p) st2
            else some (false, st2)) ≠ none
          by_cases hlast : (!(P.prog.inst id).last) = true
          · rw [if_pos hlast]
            have hl : (P.prog.inst id).last = false := by rwa [Bool.not_eq_true'] at hlast
            have hid1 : id + 1 < P.prog.size := hwf.2 id hid hl
            exact ih.1 (id + 1) p st2 hid1 hp1 hp2 hlen2 (by omega)
          · rw [if_neg hlast]; simp
    · -- Try
      intro id p st hid hp1 hp2 hlen hf
      have hout : (P.prog.inst id).out < P.prog.size := hwf.1 id hid
      cases hop : (P.prog.inst id).op with
      | AltMatch => simp [runF, hop]
      | ByteRange lo hi =>
        simp only [runF, hop]
        by_cases hm : instByteMatches lo hi (byteAt P p) = true
        · rw [if_pos hm]
          have hplt : p < P.te := by
            by_contra hge
            rw [byteAt, if_neg hge, byteMatches_end] at hm
            exact Bool.noConfusion hm
          exact ih.1 _ (p + 1) st hout (by omega) (by omega) hlen (by omega)
        · rw [if_neg hm]; simp
      | Capture cp =>
        simp only [runF, hop]
        by_cases hcp : 0 ≤ cp ∧ cp < 64
        · rw [if_pos hcp]
          have hucap : unvisitedCount P { st with cap := st.cap.set cp.toNat (some p) } =
              unvisitedCount P st := rfl
          have hvis := ih.1 _ p { st with cap := st.cap.set cp.toNat (some p) }
            hout hp1 hp2 hlen (by omega)
          obtain ⟨⟨b2, st2⟩, heq⟩ := Option.ne_none_iff_exists'.1 hvis
          rw [heq]
          simp
        · rw [if_neg hcp]
          exact ih.1 _ p st hout hp1 hp2 hlen (by omega)
      | EmptyWidth em =>
        simp only [runF, hop]
        by_cases hew : em &&& (4294967295 ^^^ P.ef P.cb P.ce p) ≠ 0
        · rw [if_pos hew]; simp
        · rw [if_neg hew]
          exact ih.1 _ p st hout hp1 hp2 hlen (by omega)
      | Nop =>
        simp only [runF, hop]
        exact ih.1 _ p st hout hp1 hp2 hlen (by omega)
      | Match =>
        simp only [runF, hop]
        by_cases hem : (P.endmatch && decide (p ≠ P.ce)) = true
        · rw [if_pos hem]; simp
        · rw [if_neg hem]
          by_cases hrec : ((st.sub.getD 0 (none, 0)).1.isNone ||
              (P.longest && decide ((st.sub.getD 0 (none, 0)).1.getD 0 +
                (st.sub.getD 0 (none, 0)).2 < p))) = true
          · rw [if_pos hrec]; simp
          · rw [if_neg hrec]; simp
      | Fail => simp [runF, hop]

/-- A `Visit` whose pair's bit is already set is pruned: it returns false
immediately and leaves the whole search state untouched. -/
lemma runF_visit_visited (P : BtParams) (fuel id p : Nat) (st : BtState)
    (hp : p ≤ P.te) (hdiv : bitIndex P id p / 32 < st.visited.length)
    (hv : visitedGet st.visited (bitIndex P id p) = true) :
    runF P (fuel + 1) (.visit id p) st = some (false, st) := by
  simp only [runF]
  rw [if_neg (not_not_intro hp), if_neg (not_not_intro hdiv), if_pos hv]

/-- After a completed `Visit` of `(id, p)`, that pair's bit is set: the
bit is set before exploring and never cleared. -/
lemma runF_visit_marks (P : BtParams) :
    ∀ fuel id p (st : BtState) b st',
      runF P fuel (.visit id p) st = some (b, st') →
      visitedGet st'.visited (bitIndex P id p) = true := by
  intro fuel id p st b st' h
  cases fuel with
  | zero => simp [runF] at h
  | succ f =>
    simp only [runF] at h
    split at h
    · exact absurd h (by simp)
    · split at h
      · exact absurd h (by simp)
      · rename_i hdiv
        rw [not_not] at hdiv
        split at h
        · rename_i hv
          simp only [Option.some.injEq, Prod.mk.injEq] at h
          rw [← h.2]
          exact hv
        · rename_i hv
          have hself : visitedGet (visitedSet st.visited (bitIndex P id p))
              (bitIndex P id p) = true :=
            visitedGet_visitedSet_self _ _ hdiv
          split at h
          · exact absurd h (by simp)
          · rename_i st2 heq
            have h12 := (runF_preserve P f _ _ _ _ heq).2.2 _ hself
            split at h
            · split at h
              · exact absurd h (by simp)
              · rename_i st3 heq2
                simp only [Option.some.injEq, Prod.mk.injEq] at h
                rw [← h.2]
                exact (runF_preserve P f _ _ _ _ heq2).2.2 _ h12
            · simp only [Option.some.injEq, Prod.mk.injEq] at h
              rw [← h.2]
              exact h12
          · rename_i st2 heq
            have h12 := (runF_preserve P f _ _ _ _ heq).2.2 _ hself
            split at h
            · exact (runF_preserve P f _ _ _ _ h).2.2 _ h12
            · simp only [Option.some.injEq, Prod.mk.injEq] at h
              rw [← h.2]
              exact h12

/-- The unanchored loop never aborts when the per-position searches
cannot abort. -/
lemma searchLoop_ne_none (P : BtParams) (hwf : WfProg P.prog)
    (hstart : P.prog.start < P.prog.size) (fuel : Nat)
    (hfuel : 2 * (P.prog.size * ((P.te - P.tb) + 1)) + 1 ≤ fuel) :
    ∀ ps (st : BtState), (∀ p ∈ ps, P.tb ≤ p ∧ p ≤ P.te) →
      st.visited.length = nvisitedWords P.prog (P.te - P.tb) →
      searchLoop P fuel ps st ≠ none := by
  intro ps
  induction ps with
  | nil => intro st _ _; simp [searchLoop]
  | cons p ps ihp =>
    intro st hmem hlen
    simp only [searchLoop]
    have hp := hmem p (List.mem_cons_self _ _)
    have hu : 2 * unvisitedCount P { st with cap := st.cap.set 0 (some p) } + 1 ≤ fuel := by
      have := unvisitedCount_le P { st with cap := st.cap.set 0 (some p) }
      omega
    have hvis := (runF_adequate P hwf fuel).1 P.prog.start p
      { st with cap := st.cap.set 0 (some p) } hstart hp.1 hp.2 hlen hu
    obtain ⟨⟨b, st2⟩, heq⟩ := Option.ne_none_iff_exists'.1 hvis
    rw [heq]
    cases b with
    | true => simp
    | false =>
      exact ihp st2 (fun q hq => hmem q (List.mem_cons_of_mem _ hq))
        (by rw [(runF_preserve P _ _ _ _ _ heq).2.1]; exact hlen)

/-- `Search` never aborts on a well-formed program with a valid
`nsubmatch`: no `RE2_CHECK` fires and the recursion fuel is sufficient. -/
lemma Search_ne_none (prog : Prog) (mem : List Nat) (tb te : Nat)
    (ctx : Option (Nat × Nat)) (anchored longest : Bool) (submatch : List Sub)
    (nsubmatch : Int) (ef : Nat → Nat → Nat → Nat)
    (hwf : WfProg prog) (hstart : prog.start < prog.size) (htb : tb ≤ te)
    (hn : 2 * nsubmatch < 64) :
    Search prog mem tb te ctx anchored longest submatch nsubmatch ef ≠ none := by
  rw [Search]
  rw [if_neg (not_not_intro hn)]
  by_cases hc1 : (prog.anchor_start && decide (tb > (ctx.getD (tb, te)).1)) = true
  · rw [if_pos hc1]; simp
  · rw [if_neg hc1]
    by_cases hc2 : (prog.anchor_end && decide (te < (ctx.getD (tb, te)).2)) = true
    · rw [if_pos hc2]; simp
    · rw [if_neg hc2]
      by_cases hanch : (anchored || prog.anchor_start) = true
      · rw [if_pos hanch]
        show (match runF
            ⟨prog, mem, tb, te, (ctx.getD (tb, te)).1, (ctx.getD (tb, te)).2,
              longest || prog.anchor_end, prog.anchor_end,
              if nsubmatch < 1 then 1 else nsubmatch.toNat, ef⟩
            (2 * (prog.size * ((te - tb) + 1)) + 1) (.visit prog.start tb)
            ⟨initialCap.set 0 (some tb),
              List.replicate (nvisitedWords prog (te - tb)) 0,
              (if nsubmatch < 1 then [((none : Option Nat), 0)] else submatch).set 0
                (none, 0)⟩ with
          | none => none
          | some (r, st) => some (r, st.sub)) ≠ none
        have hvis := (runF_adequate
            ⟨prog, mem, tb, te, (ctx.getD (tb, te)).1, (ctx.getD (tb, te)).2,
              longest || prog.anchor_end, prog.anchor_end,
              if nsubmatch < 1 then 1 else nsubmatch.toNat, ef⟩ hwf
            (2 * (prog.size * ((te - tb) + 1)) + 1)).1
          prog.start tb
          ⟨initialCap.set 0 (some tb),
            List.replicate (nvisitedWords prog (te - tb)) 0,
            (if nsubmatch < 1 then [((none : Option Nat), 0)] else submatch).set 0 (none, 0)⟩
          hstart (Nat.le_refl tb) htb (List.length_replicate _ _)
          (Nat.add_le_add_right (Nat.mul_le_mul_left 2 (unvisitedCount_le _ _)) 1)
        obtain ⟨⟨b, st⟩, heq⟩ := Option.ne_none_iff_exists'.1 hvis
        rw [heq]
        simp
      · rw [if_neg hanch]
        show (match searchLoop
            ⟨prog, mem, tb, te, (ctx.getD (tb, te)).1, (ctx.getD (tb, te)).2,
              longest || prog.anchor_end, prog.anchor_end,
              if nsubmatch < 1 then 1 else nsubmatch.toNat, ef⟩
            (2 * (prog.size * ((te - tb) + 1)) + 1) (List.range' tb ((te - tb) + 1))
            ⟨initialCap, List.replicate (nvisitedWords prog (te - tb)) 0,
              (if nsubmatch < 1 then [((none : Option Nat), 0)] else submatch).set 0
                (none, 0)⟩ with
          | none => none
          | some (r, st) => some (r, st.sub)) ≠ none
        have hloop := searchLoop_ne_none
          ⟨prog, mem, tb, te, (ctx.getD (tb, te)).1, (ctx.getD (tb, te)).2,
            longest || prog.anchor_end, prog.anchor_end,
            if nsubmatch < 1 then 1 else nsubmatch.toNat, ef⟩ hwf hstart
          (2 * (prog.size * ((te - tb) + 1)) + 1) (Nat.le_refl _)
          (List.range' tb ((te - tb) + 1))
          ⟨initialCap, List.replicate (nvisitedWords prog (te - tb)) 0,
            (if nsubmatch < 1 then [((none : Option Nat), 0)] else submatch).set 0 (none, 0)⟩
          (by intro q hq
              rw [List.mem_range'_1] at hq
              show tb ≤ q ∧ q ≤ te
              omega)
          (List.length_replicate _ _)
        obtain ⟨⟨b, st⟩, heq⟩ := Option.ne_none_iff_exists'.1 hloop
        rw [heq]
        simp

end Backtracker

/-! Helper lemmas for the DFA state functors. -/

namespace DFA

/-- The elementwise comparison loop decides list equality. -/
lemma instListEqual_iff : ∀ as bs : List Int, instListEqual as bs = true ↔ as = bs := by
  intro as
  induction as with
  | nil => intro bs; cases bs <;> simp [instListEqual]
  | cons a as iha =>
    intro bs
    cases bs with
    | nil => simp [instListEqual]
    | cons b bs => simp [instListEqual, iha bs]

/-- `StateEqual` decides the conjunction of flag equality and
instruction-list equality. -/
lemma StateEqual_iff (a b : State) :
    StateEqual a b = true ↔ a.flag = b.flag ∧ a.inst = b.inst := by
  unfold StateEqual
  by_cases hab : a = b
  · rw [if_pos hab]
    subst hab
    simp
  · rw [if_neg hab]
    by_cases hf : a.flag ≠ b.flag
    · rw [if_pos hf]
      simp [hf]
    · rw [if_neg hf]
      have hf2 : a.flag = b.flag := not_not.1 hf
      by_cases hl : a.inst.length ≠ b.inst.length
      · rw [if_pos hl]
        simp only [Bool.false_eq_true, false_iff, not_and]
        intro _ h2
        exact absurd (by rw [h2]) hl
      · rw [if_neg hl]
        rw [instListEqual_iff]
        exact ⟨fun h => ⟨hf2, h⟩, fun h => h.2⟩

end DFA

/-! The claim theorems. -/

/-- C1: During a single call to `Backtracker::Search`, the visited bitmap
is allocated with ceil(prog.size × (text.size()+1) / 32) 32-bit words, one
bit per (instruction id, string position) pair; `Visit(id, p)` sets its
pair's bit before exploring and returns false immediately whenever that
bit is already set; therefore each (instruction, position) pair is
explored at most once per search and the mutually recursive `Visit`/`Try`
calls terminate (the fuel `Search` supplies is never exhausted and no
`RE2_CHECK` fires). -/
theorem C1_visited_bitmap_termination :
    (∀ (prog : Prog) (tsize : Nat),
      prog.size * (tsize + 1) ≤ 32 * Backtracker.nvisitedWords prog tsize ∧
      32 * Backtracker.nvisitedWords prog tsize < prog.size * (tsize + 1) + 32) ∧
    (∀ (P : Backtracker.BtParams) (fuel id p : Nat) (st : Backtracker.BtState),
      p ≤ P.te →
      Backtracker.bitIndex P id p / 32 < st.visited.length →
      Backtracker.visitedGet st.visited (Backtracker.bitIndex P id p) = true →
      Backtracker.runF P (fuel + 1) (.visit id p) st = some (false, st)) ∧
    (∀ (P : Backtracker.BtParams) (fuel id p : Nat) (st : Backtracker.BtState) b st2,
      Backtracker.runF P fuel (.visit id p) st = some (b, st2) →
      Backtracker.visitedGet st2.visited (Backtracker.bitIndex P id p) = true) ∧
    (∀ (P : Backtracker.BtParams) (fuel : Nat) (c : Backtracker.BtCall)
      (st : Backtracker.BtState) b st2,
      Backtracker.runF P fuel c st = some (b, st2) →
      ∀ n, Backtracker.visitedGet st.visited n = true →
        Backtracker.visitedGet st2.visited n = true) ∧
    (∀ (prog : Prog) (mem : List Nat) (tb te : Nat) (ctx : Option (Nat × Nat))
      (anchored longest : Bool) (submatch : List Sub) (nsubmatch : Int)
      (ef : Nat → Nat → Nat → Nat),
      WfProg prog → prog.start < prog.size → tb ≤ te → 2 * nsubmatch < 64 →
      Backtracker.Search prog mem tb te ctx anchored longest submatch nsubmatch ef ≠
        none) :=
  ⟨fun prog tsize => by unfold Backtracker.nvisitedWords; omega,
   Backtracker.runF_visit_visited,
   Backtracker.runF_visit_marks,
   fun P fuel c st b st2 h => (Backtracker.runF_preserve P fuel c st b st2 h).2.2,
   Backtracker.Search_ne_none⟩

/-- Witness for C1 at a concrete program, state and text. -/
theorem C1_witness :
    Backtracker.runF exP 1 (.visit 0 0) exStM = some (false, exStM) ∧
    Backtracker.Search exProgA [97] 0 1 none false false [(none, 0)] 1 exEf ≠ none := by
  constructor
  · exact C1_visited_bitmap_termination.2.1 exP 0 0 0 exStM (by decide) (by decide)
      (by decide)
  · exact C1_visited_bitmap_termination.2.2.2.2 exProgA [97] 0 1 none false false
      [(none, 0)] 1 exEf ⟨by decide, by decide⟩ (by decide) (by decide) (by decide)

/-- C2: under kind = kFullMatch, `Prog::UnsafeSearchBacktrack` forces the
search to be anchored, and returns true exactly when the backtracking
search succeeds with the recorded overall match `match[0]` ending at
`text.end()`; if the search succeeds but the best match ends elsewhere it
returns false. -/
theorem C2_full_match_requires_text_end (prog : Prog) (mem : List Nat) (tb te : Nat)
    (ctx : Option (Nat × Nat)) (anchor : Anchor) (mtch : List Sub) (nmatch : Int)
    (ef : Nat → Nat → Nat → Nat) :
    (Prog.UnsafeSearchBacktrack prog mem tb te ctx anchor .kFullMatch mtch nmatch ef =
      Prog.UnsafeSearchBacktrack prog mem tb te ctx .kAnchored .kFullMatch mtch nmatch
        ef) ∧
    (Prog.UnsafeSearchBacktrack prog mem tb te ctx anchor .kFullMatch mtch nmatch ef =
        some true ↔
      ∃ sub, Backtracker.Search prog mem tb te ctx true true
          (if nmatch < 1 then [((none : Option Nat), 0)] else mtch)
          (if nmatch < 1 then 1 else nmatch) ef = some (true, sub) ∧
        subEnd (sub.getD 0 (none, 0)) = te) ∧
    (∀ sub, Backtracker.Search prog mem tb te ctx true true
          (if nmatch < 1 then [((none : Option Nat), 0)] else mtch)
          (if nmatch < 1 then 1 else nmatch) ef = some (true, sub) →
      subEnd (sub.getD 0 (none, 0)) ≠ te →
      Prog.UnsafeSearchBacktrack prog mem tb te ctx anchor .kFullMatch mtch nmatch ef =
        some false) := by
  refine ⟨rfl, ?_, ?_⟩
  · simp only [Prog.UnsafeSearchBacktrack]
    rcases hS : Backtracker.Search prog mem tb te ctx true true
        (if nmatch < 1 then [((none : Option Nat), 0)] else mtch)
        (if nmatch < 1 then 1 else nmatch) ef with _ | ⟨b, sub⟩
    · simp [hS]
    · cases b with
      | false => simp [hS]
      | true =>
        by_cases hend : subEnd (sub.getD 0 (none, 0)) = te
        · simp [hS, hend]
        · simp [hS, hend]
  · intro sub hS hne
    simp only [Prog.UnsafeSearchBacktrack]
    simp [hS]
    intro hc
    rw [← List.getD_eq_getElem?_getD] at hc
    exact hne hc

/-- Witness for C2: the full-match wrapper rejects a match of `a` that
ends before the end of the text `ab`. -/
theorem C2_witness :
    Prog.UnsafeSearchBacktrack exProgA [97, 98] 0 2 none .kUnanchored .kFullMatch
      [(none, 0)] 1 exEf = some false := by
  have h := C2_full_match_requires_text_end exProgA [97, 98] 0 2 none .kUnanchored
    [(none, 0)] 1 exEf
  exact h.2.2 [(some 0, 1)] (by decide) (by decide)

/-- C3: in `Visit`, when `Try(id, p)` reports a match, longest-match mode
additionally explores `Visit(id+1, p)` at the same position when the
instruction is not last in its alternation group, before returning true;
without longest-match mode, success returns true without exploring
`id+1`. -/
theorem C3_longest_explores_next_alternative (P : Backtracker.BtParams)
    (fuel id p : Nat) (st st2 : Backtracker.BtState)
    (h1 : p ≤ P.te)
    (h2 : Backtracker.bitIndex P id p / 32 < st.visited.length)
    (h3 : Backtracker.visitedGet st.visited (Backtracker.bitIndex P id p) = false)
    (h4 : Backtracker.runF P fuel (.tryInst id p)
        { st with visited := Backtracker.visitedSet st.visited (Backtracker.bitIndex P id p) } =
      some (true, st2)) :
    (P.longest = true → (P.prog.inst id).last = false →
      Backtracker.runF P (fuel + 1) (.visit id p) st =
        (Backtracker.runF P fuel (.visit (id + 1) p) st2).map (fun r => (true, r.2))) ∧
    ((P.longest = false ∨ (P.prog.inst id).last = true) →
      Backtracker.runF P (fuel + 1) (.visit id p) st = some (true, st2)) := by
  have hvred : Backtracker.runF P (fuel + 1) (.visit id p) st =
      (if P.longest && !(P.prog.inst id).last then
        match Backtracker.runF P fuel (.visit (id + 1) p) st2 with
        | none => none
        | some (_, st3) => some (true, st3)
      else some (true, st2)) := by
    simp only [Backtracker.runF]
    rw [if_neg (not_not_intro h1), if_neg (not_not_intro h2),
      if_neg (by rw [h3]; exact Bool.false_ne_true)]
    rw [h4]
  constructor
  · intro hl hlast
    rw [hvred, if_pos (by rw [hl, hlast]; rfl)]
    rcases hr : Backtracker.runF P fuel (.visit (id + 1) p) st2 with _ | ⟨b3, st3⟩
    · rfl
    · rfl
  · intro hor
    have hcond : (P.longest && !(P.prog.inst id).last) = false := by
      rcases hor with hl | hlast
      · rw [hl]; rfl
      · rw [hlast]; exact Bool.and_false _
    rw [hvred, if_neg (by rw [hcond]; exact Bool.false_ne_true)]

/-- Witness for C3: with longest-match off, a successful `Try` of the
match instruction returns true immediately. -/
theorem C3_witness :
    Backtracker.runF exP 2 (.visit 0 0) exStM0 = some (true, exStM2) :=
  (C3_longest_explores_next_alternative exP 1 0 0 exStM0 exStM2 (by decide) (by decide)
    (by decide) (by decide)).2 (Or.inl rfl)

/-- C4: `DFA::StateEqual` holds exactly when the two states have the same
`flag_` and the same instruction sequence (same `ninst_`, elementwise
equal `inst_`); the `next_` transition slots take no part in state
equality. -/
theorem C4_state_equality_flag_inst_only (a b : DFA.State) :
    (DFA.StateEqual a b = true ↔ a.flag = b.flag ∧ a.inst = b.inst) ∧
    (∀ n1 n2 : List Nat,
      DFA.StateEqual { a with next := n1 } { b with next := n2 } =
        DFA.StateEqual a b) := by
  refine ⟨DFA.StateEqual_iff a b, fun n1 n2 => ?_⟩
  have h1 := DFA.StateEqual_iff { a with next := n1 } { b with next := n2 }
  have h2 := DFA.StateEqual_iff a b
  rcases hx : DFA.StateEqual { a with next := n1 } { b with next := n2 } with _ | _ <;>
    rcases hy : DFA.StateEqual a b with _ | _
  · rfl
  · rw [hx] at h1
    rw [hy] at h2
    exact absurd (h1.2 (h2.1 rfl)) (by simp)
  · rw [hx] at h1
    rw [hy] at h2
    exact absurd (h2.2 (h1.1 rfl)) (by simp)
  · rfl

/-- C5: `Backtracker::Search` returns false immediately (without touching
the caller's submatch array) when the program has `anchor_start` and the
text begins strictly after the context begins, or has `anchor_end` and
the text ends strictly before the context ends. -/
theorem C5_anchored_context_mismatch (prog : Prog) (mem : List Nat) (tb te : Nat)
    (ctx : Option (Nat × Nat)) (anchored longest : Bool) (submatch : List Sub)
    (nsubmatch : Int) (ef : Nat → Nat → Nat → Nat)
    (h : (prog.anchor_start = true ∧ (ctx.getD (tb, te)).1 < tb) ∨
         (prog.anchor_end = true ∧ te < (ctx.getD (tb, te)).2)) :
    Backtracker.Search prog mem tb te ctx anchored longest submatch nsubmatch ef =
      some (false, submatch) := by
  rw [Backtracker.Search]
  by_cases hc1 : (prog.anchor_start && decide (tb > (ctx.getD (tb, te)).1)) = true
  · rw [if_pos hc1]
  · rw [if_neg hc1]
    have hc2 : (prog.anchor_end && decide (te < (ctx.getD (tb, te)).2)) = true := by
      rcases h with ⟨ha, hlt⟩ | ⟨ha, hlt⟩
      · refine absurd ?_ hc1
        rw [ha, Bool.true_and, decide_eq_true_iff]
        omega
      · rw [ha, Bool.true_and, decide_eq_true_iff]
        exact hlt
    rw [if_pos hc2]

/-- Witness for C5: an `anchor_start` program refuses a text displaced
inside its context. -/
theorem C5_witness :
    Backtracker.Search exProgAnchorStart [97, 97] 1 2 (some (0, 2)) false false
      [(none, 0)] 1 exEf = some (false, [(none, 0)]) :=
  C5_anchored_context_mismatch exProgAnchorStart [97, 97] 1 2 (some (0, 2)) false false
    [(none, 0)] 1 exEf (Or.inl ⟨rfl, by decide⟩)

/-- C6: the capture register file has exactly 64 slots; `Search` fatally
checks `2 * nsubmatch < 64` (once the anchoring early-outs do not fire); a
kInstCapture instruction whose register index is outside `[0, 64)` is
followed without reading or writing any capture register; and every
completed `Visit`/`Try` preserves the size of the register file, so all
guarded register accesses stay within the 64 slots. -/
theorem C6_capture_register_bounds :
    (Backtracker.initialCap.length = 64) ∧
    (∀ (prog : Prog) (mem : List Nat) (tb te : Nat) (ctx : Option (Nat × Nat))
      (anchored longest : Bool) (submatch : List Sub) (nsubmatch : Int)
      (ef : Nat → Nat → Nat → Nat),
      (prog.anchor_start && decide (tb > (ctx.getD (tb, te)).1)) = false →
      (prog.anchor_end && decide (te < (ctx.getD (tb, te)).2)) = false →
      ¬ (2 * nsubmatch < 64) →
      Backtracker.Search prog mem tb te ctx anchored longest submatch nsubmatch ef =
        none) ∧
    (∀ (P : Backtracker.BtParams) (fuel id p : Nat) (st : Backtracker.BtState)
      (cp : Int),
      (P.prog.inst id).op = .Capture cp →
      ¬ (0 ≤ cp ∧ cp < 64) →
      Backtracker.runF P (fuel + 1) (.tryInst id p) st =
        Backtracker.runF P fuel (.visit (P.prog.inst id).out p) st) ∧
    (∀ (P : Backtracker.BtParams) (fuel : Nat) (c : Backtracker.BtCall)
      (st : Backtracker.BtState) b st2,
      Backtracker.runF P fuel c st = some (b, st2) →
      st2.cap.length = st.cap.length) := by
  refine ⟨rfl, ?_, ?_, ?_⟩
  · intro prog mem tb te ctx anchored longest submatch nsubmatch ef hc1 hc2 hn
    rw [Backtracker.Search]
    rw [if_neg (by rw [hc1]; exact Bool.false_ne_true),
      if_neg (by rw [hc2]; exact Bool.false_ne_true), if_pos hn]
  · intro P fuel id p st cp hop hcp
    simp only [Backtracker.runF, hop]
    rw [if_neg hcp]
  · intro P fuel c st b st2 h
    exact (Backtracker.runF_preserve P fuel c st b st2 h).1

/-- Witness for C6: a fatal check on nsubmatch = 40, an out-of-range
capture index followed through untouched, and register-file preservation
at a concrete call. -/
theorem C6_witness :
    Backtracker.Search exProgA [97] 0 1 none false false [(none, 0)] 40 exEf = none ∧
    Backtracker.runF exPCap 1 (.tryInst 0 0) exStM0 =
      Backtracker.runF exPCap 0 (.visit 1 0) exStM0 ∧
    exStM.cap.length = exStM.cap.length := by
  refine ⟨?_, ?_, ?_⟩
  · exact C6_capture_register_bounds.2.1 exProgA [97] 0 1 none false false [(none, 0)]
      40 exEf (by decide) (by decide) (by decide)
  · exact C6_capture_register_bounds.2.2.1 exPCap 0 0 0 exStM0 99 rfl (by decide)
  · exact C6_capture_register_bounds.2.2.2 exP 1 (.visit 0 0) exStM false exStM
      (Backtracker.runF_visit_visited exP 0 0 0 exStM (by decide) (by decide)
        (by decide))

/-- C7: `DFA::RWLocker` acquires the cache mutex in reader mode on
construction; `LockForWriting` releases the reader lock and then acquires
the writer lock, so the lock is not held between the two steps (the
upgrade is not atomic); calls after the first are no-ops; destruction
releases the lock in whichever mode is currently held. -/
theorem C7_rwlocker_upgrade_not_atomic :
    (DFA.RWLocker.new = (⟨false⟩, [.readerLock]) ∧
      DFA.heldTrace none DFA.RWLocker.new.2 = some .reader) ∧
    (∀ l : DFA.RWLocker, l.writing = false →
      l.lockForWriting = (⟨true⟩, [.readerUnlock, .writerLock]) ∧
      DFA.heldTrace (some .reader) [DFA.LockEvent.readerUnlock] = none ∧
      DFA.heldTrace (some .reader) l.lockForWriting.2 = some .writer) ∧
    (∀ l : DFA.RWLocker, l.lockForWriting.1.writing = true) ∧
    (∀ l : DFA.RWLocker, l.writing = true → l.lockForWriting = (l, [])) ∧
    (∀ l : DFA.RWLocker, l.destroy =
      if l.writing then [DFA.LockEvent.writerUnlock]
      else [DFA.LockEvent.readerUnlock]) := by
  refine ⟨⟨rfl, rfl⟩, ?_, ?_, ?_, ?_⟩
  · rintro ⟨w⟩ hw
    cases w
    · exact ⟨rfl, rfl, rfl⟩
    · exact absurd hw (by simp)
  · rintro ⟨w⟩
    cases w <;> rfl
  · rintro ⟨w⟩ hw
    cases w
    · exact absurd hw (by simp)
    · rfl
  · rintro ⟨w⟩
    rfl

/-- Witness for C7: the upgrade from a fresh (reading) locker, and the
no-op upgrade of a locker already writing. -/
theorem C7_witness :
    DFA.RWLocker.lockForWriting ⟨false⟩ = (⟨true⟩, [.readerUnlock, .writerLock]) ∧
    DFA.RWLocker.lockForWriting ⟨true⟩ = (⟨true⟩, []) :=
  ⟨(C7_rwlocker_upgrade_not_atomic.2.1 ⟨false⟩ rfl).1,
   C7_rwlocker_upgrade_not_atomic.2.2.2.1 ⟨true⟩ rfl⟩

/-- C8: `DFA::ByteMap` maps every real byte `c ∈ [0, 255]` to
`prog_->bytemap()[c]`, which lies in `[0, bytemap_range)`, and maps the
imaginary end-of-text byte `kByteEndText = 256` to
`prog_->bytemap_range()`. -/
theorem C8_bytemap_classes (prog : Prog)
    (h : ∀ c, c < 256 → prog.bytemap.getD c 0 < prog.bytemap_range) :
    (∀ c, c ≤ 255 → DFA.ByteMap prog c = prog.bytemap.getD c 0 ∧
      DFA.ByteMap prog c < prog.bytemap_range) ∧
    DFA.ByteMap prog DFA.kByteEndText = prog.bytemap_range := by
  constructor
  · intro c hc
    have hne : c ≠ DFA.kByteEndText := by unfold DFA.kByteEndText; omega
    unfold DFA.ByteMap
    rw [if_neg hne]
    exact ⟨rfl, h c (by omega)⟩
  · unfold DFA.ByteMap
    rw [if_pos rfl]

set_option maxRecDepth 4000 in
/-- Witness for C8 on a single-class bytemap. -/
theorem C8_witness :
    DFA.ByteMap exProgBytemap 0 = 0 ∧ DFA.ByteMap exProgBytemap 0 < 1 ∧
    DFA.ByteMap exProgBytemap DFA.kByteEndText = 1 := by
  have h := C8_bytemap_classes exProgBytemap (by decide)
  exact ⟨((h.1 0 (by decide)).1).trans (by decide), (h.1 0 (by decide)).2, h.2⟩

/-- C9: `DFA::StateHash` is consistent with `DFA::StateEqual` for every
implementation of the external HashMix: equal states hash equally, because
the hash reads only `flag_` and the `ninst_` entries of `inst_` — exactly
the attributes equality inspects — so the `StateSet` intern set is
well-defined. -/
theorem C9_hash_consistent_with_equality (M : Type) (init : Nat → M)
    (mix : M → Int → M) (get : M → Nat) (a b : DFA.State)
    (h : DFA.StateEqual a b = true) :
    DFA.StateHash init mix get a = DFA.StateHash init mix get b := by
  obtain ⟨hf, hi⟩ := (DFA.StateEqual_iff a b).1 h
  unfold DFA.StateHash
  rw [hf, hi]

/-- Witness for C9 on two states that differ only in their `next`
slots, with a concrete mixer. -/
theorem C9_witness :
    DFA.StateHash (fun f => f) (fun m x => 31 * m + x.natAbs) (fun m => m) exStateA =
    DFA.StateHash (fun f => f) (fun m x => 31 * m + x.natAbs) (fun m => m) exStateB :=
  C9_hash_consistent_with_equality Nat (fun f => f) (fun m x => 31 * m + x.natAbs)
    (fun m => m) exStateA exStateB (by decide)

/-- C10: a search with a NULL context substitutes the text itself as the
context before any anchor check or empty-width evaluation, so it behaves
identically to a search whose context equals the text. -/
theorem C10_null_context_is_text (prog : Prog) (mem : List Nat) (tb te : Nat)
    (anchored longest : Bool) (submatch : List Sub) (nsubmatch : Int)
    (ef : Nat → Nat → Nat → Nat) :
    Backtracker.Search prog mem tb te none anchored longest submatch nsubmatch ef =
    Backtracker.Search prog mem tb te (some (tb, te)) anchored longest submatch
      nsubmatch ef := rfl

end RE2
